import Mathlib

/-!
Verification of the `nn-arch-viz` layout engine and editing surface.

The development shallowly embeds the graph computation of
`src/components/NetworkGraph.tsx` and the editing callbacks of
`src/components/Sidebar.tsx`.  JavaScript numbers are modelled by `ℚ`
(every value actually produced by the source on integral inputs is
rational); `Math.sin(x) * 10000` is an opaque parameter
`sinTimes10000 : ℤ → ℚ`, since the weight counter only ever takes
integer values `weightSeed + k`.
-/

namespace NNViz

/-- Embedding of `LayerConfig` from `src/types.ts`. -/
structure LayerConfig where
  id : String
  neurons : ℕ
deriving DecidableEq

/-- The `direction` field's enumeration from `src/types.ts`. -/
inductive Direction where
  | horizontal
  | vertical
deriving DecidableEq

/-- The `arrowheads` field's enumeration from `src/types.ts`. -/
inductive Arrowheads where
  | none
  | empty
  | solid
deriving DecidableEq

/-- Embedding of `VisualSettings` from `src/types.ts`. -/
structure VisualSettings where
  edgeColor : String
  useBezier : Bool
  nodeDiameter : ℚ
  nodeColor : String
  nodeBorderColor : String
  layerSpacing : ℚ
  direction : Direction
  showBias : Bool
  showLabels : Bool
  arrowheads : Arrowheads
  weightSeed : ℤ
deriving DecidableEq

/-- The container dimensions (`dimensions` state in `NetworkGraph.tsx`). -/
structure Dimensions where
  width : ℚ
  height : ℚ
deriving DecidableEq

/-- Embedding of the `Node` interface of `NetworkGraph.tsx`. -/
structure Node where
  id : String
  layerIndex : ℕ
  neuronIndex : ℕ
  x : ℚ
  y : ℚ
  isBias : Bool
deriving DecidableEq

/-- Embedding of the `Link` interface of `NetworkGraph.tsx`. -/
structure Link where
  id : String
  source : Node
  target : Node
  weight : ℚ
deriving DecidableEq

/-- Decimal rendering of a natural number, as JavaScript template
interpolation produces for the nonnegative integers used as indices. -/
def decRepr (n : ℕ) : String :=
  if n = 0 then "0" else ⟨((Nat.digits 10 n).map Nat.digitChar).reverse⟩

/-- The node identifier string from line 100 of `NetworkGraph.tsx`. -/
def nodeId (layerIdx i : ℕ) : String :=
  decRepr layerIdx ++ "-" ++ decRepr i

/-- `settings.direction === 'horizontal'` (line 49). -/
def VisualSettings.isHoriz (settings : VisualSettings) : Bool :=
  settings.direction = Direction.horizontal

/-- The effective node count of a layer (lines 80-82): the neuron count,
plus one when bias units are shown and the layer is not the last. -/
def effectiveCount (settings : VisualSettings) (numLayers layerIdx neuronCount : ℕ) : ℕ :=
  if settings.showBias = true ∧ layerIdx ≠ numLayers - 1 then neuronCount + 1 else neuronCount

/-- The nodes generated for one layer (the body of `layers.forEach`,
lines 78-108 of `NetworkGraph.tsx`). -/
def mkLayerNodes (settings : VisualSettings) (centerX centerY startMainAxis : ℚ)
    (numLayers layerIdx : ℕ) (layer : LayerConfig) : List Node :=
  let neuronCount := layer.neurons
  let effCount := effectiveCount settings numLayers layerIdx neuronCount
  let nodeSpacing : ℚ := settings.nodeDiameter * (5 / 2)
  let layerHeight : ℚ := ((effCount : ℚ) - 1) * nodeSpacing
  let layerMainPos : ℚ := startMainAxis + (layerIdx : ℚ) * settings.layerSpacing
  (List.range effCount).map (fun i =>
    let isBias : Bool :=
      settings.showBias && (decide (layerIdx ≠ numLayers - 1)) && (decide (i = effCount - 1))
    let layerCrossPos : ℚ :=
      (if settings.isHoriz then centerY else centerX) - layerHeight / 2 + (i : ℚ) * nodeSpacing
    { id := nodeId layerIdx i
      layerIndex := layerIdx
      neuronIndex := i
      x := if settings.isHoriz then layerMainPos else layerCrossPos
      y := if settings.isHoriz then layerCrossPos else layerMainPos
      isBias := isBias })

/-- The whole node-generation loop, iterating layers from index `layerIdx`. -/
def buildNodes (settings : VisualSettings) (centerX centerY startMainAxis : ℚ)
    (numLayers : ℕ) : ℕ → List LayerConfig → List Node
  | _, [] => []
  | layerIdx, layer :: rest =>
      mkLayerNodes settings centerX centerY startMainAxis numLayers layerIdx layer ++
        buildNodes settings centerX centerY startMainAxis numLayers (layerIdx + 1) rest

/-- Node generation of lines 46-108: centering constants, then the loop. -/
def computeNodes (settings : VisualSettings) (dims : Dimensions)
    (layers : List LayerConfig) : List Node :=
  let layoutLength : ℚ := ((layers.length : ℚ) - 1) * settings.layerSpacing
  let centerX : ℚ := dims.width / 2
  let centerY : ℚ := dims.height / 2
  let startMainAxis : ℚ :=
    (if settings.isHoriz then centerX else centerY) - layoutLength / 2
  buildNodes settings centerX centerY startMainAxis layers.length 0 layers

/-- `seededRandom` (lines 71-74): `sinTimes10000 : ℤ → ℚ` stands for the
opaque float computation `Math.sin(seed) * 10000`; the function returns its
fractional part `x - Math.floor(x)`. -/
def seededRandom (sinTimes10000 : ℤ → ℚ) (seed : ℤ) : ℚ :=
  sinTimes10000 seed - ⌊sinTimes10000 seed⌋

/-- The link identifier string from line 121 of `NetworkGraph.tsx`. -/
def linkId (sourceId targetId : String) : String :=
  sourceId ++ "->" ++ targetId

/-- The inner `targets.forEach` loop (lines 114-127): emit one link per
non-bias target, threading the weight counter. -/
def pushLinks (sinTimes10000 : ℤ → ℚ) (source : Node) :
    List Node → ℤ → List Link × ℤ
  | [], counter => ([], counter)
  | target :: rest, counter =>
      if target.isBias then pushLinks sinTimes10000 source rest counter
      else
        let link : Link :=
          { id := linkId source.id target.id
            source := source
            target := target
            weight := seededRandom sinTimes10000 counter }
        let next := pushLinks sinTimes10000 source rest (counter + 1)
        (link :: next.1, next.2)

/-- The outer `nodes.forEach` loop (lines 111-128): for each source, filter
the next layer's nodes and emit links. -/
def genLinks (sinTimes10000 : ℤ → ℚ) (all : List Node) :
    List Node → ℤ → List Link × ℤ
  | [], counter => ([], counter)
  | source :: rest, counter =>
      let targets := all.filter (fun n => n.layerIndex = source.layerIndex + 1)
      let first := pushLinks sinTimes10000 source targets counter
      let next := genLinks sinTimes10000 all rest first.2
      (first.1 ++ next.1, next.2)

/-- The full graph computation of the `useMemo` body (lines 46-131),
without the unused `maxNeurons` binding. -/
def computeLayout (sinTimes10000 : ℤ → ℚ) (layers : List LayerConfig)
    (settings : VisualSettings) (dims : Dimensions) : List Node × List Link :=
  let nodes := computeNodes settings dims layers
  (nodes, (genLinks sinTimes10000 nodes nodes settings.weightSeed).1)

/-- `maxNeurons` (line 51): the maximum over layers of
`l.neurons + (showBias ? 1 : 0)`; `Math.max` of an empty spread is `-∞`,
modelled by `⊥` of `WithBot`. -/
def maxNeurons (layers : List LayerConfig) (settings : VisualSettings) : WithBot ℤ :=
  (layers.map (fun l => (l.neurons : ℤ) + (if settings.showBias then 1 else 0))).maximum

/-- The graph computation exactly as written in the source, including the
dead `maxNeurons` binding of line 51. -/
def computeLayoutWithMax (sinTimes10000 : ℤ → ℚ) (layers : List LayerConfig)
    (settings : VisualSettings) (dims : Dimensions) : List Node × List Link :=
  let _m := maxNeurons layers settings
  computeLayout sinTimes10000 layers settings dims

/-- The clamp on line 28 of `Sidebar.tsx`: `Math.max(1, Math.min(50, value))`. -/
def clampNeurons (value : ℤ) : ℤ :=
  max 1 (min 50 value)

/-- The layers value observed after `updateLayerNeuron` (lines 25-30 of
`Sidebar.tsx`): the layer at `index` carries the clamped neuron count. -/
def updateLayerNeuron (layers : List LayerConfig) (index : ℕ) (value : ℤ) :
    List LayerConfig :=
  match layers[index]? with
  | Option.none => layers
  | Option.some layer => layers.set index { layer with neurons := (clampNeurons value).toNat }

/-- `updateSetting` (lines 18-23 of `Sidebar.tsx`) specialised to a field
update function: spreads the old record into a fresh one. -/
def updateSetting (settings : VisualSettings) (patch : VisualSettings → VisualSettings) :
    VisualSettings :=
  patch settings

/-- A reference heap for JavaScript object identity: references are
naturals, cells are `LayerConfig` records. -/
def Heap : Type := ℕ → LayerConfig

/-- Dereference a list of object references into the value a consumer
observes. -/
def viewLayers (heap : Heap) (refs : List ℕ) : List LayerConfig :=
  refs.map heap

/-- `updateLayerNeuron` with object identity made explicit:
`const newLayers = [...layers]` copies only the array of references, and
`newLayers[index].neurons = ...` writes through the shared reference into
the heap. -/
def updateLayerNeuronHeap (heap : Heap) (refs : List ℕ) (index : ℕ) (value : ℤ) :
    Heap × List ℕ :=
  let newRefs := refs
  let r := newRefs.getD index 0
  (Function.update heap r { heap r with neurons := (clampNeurons value).toNat }, newRefs)

/-- The total effective node count over layers, starting at index `i`. -/
def effTotal (settings : VisualSettings) (numLayers : ℕ) : ℕ → List LayerConfig → ℕ
  | _, [] => 0
  | i, layer :: rest =>
      effectiveCount settings numLayers i layer.neurons + effTotal settings numLayers (i + 1) rest

/-- The number of indices covered by a layer suffix that are not the final
layer index. -/
def nonFinalCount (numLayers : ℕ) : ℕ → List LayerConfig → ℕ
  | _, [] => 0
  | i, _ :: rest => (if i ≠ numLayers - 1 then 1 else 0) + nonFinalCount numLayers (i + 1) rest

/-- The superscript digit glyphs `"⁰¹²³⁴⁵⁶⁷⁸⁹"[d]` (line 158). -/
def superDigit : ℕ → Char
  | 0 => '⁰'
  | 1 => '¹'
  | 2 => '²'
  | 3 => '³'
  | 4 => '⁴'
  | 5 => '⁵'
  | 6 => '⁶'
  | 7 => '⁷'
  | 8 => '⁸'
  | 9 => '⁹'
  | _ => ' '

/-- `parseInt` on a single digit character. -/
def charDigitVal (c : Char) : ℕ :=
  c.toNat - '0'.toNat

/-- `getSuperscript` (lines 157-160): render the decimal digits of `num`
with superscript glyphs. -/
def getSuperscript (num : ℕ) : String :=
  ⟨(decRepr num).data.map (fun c => superDigit (charDigitVal c))⟩

/-- `getLayerLabel` (lines 151-155). -/
def getLayerLabel (numLayers idx neuronCount : ℕ) : String :=
  if idx = 0 then "Input Layer ∈ R" ++ getSuperscript neuronCount
  else if idx = numLayers - 1 then "Output Layer ∈ R" ++ getSuperscript neuronCount
  else "Hidden Layer ∈ R" ++ getSuperscript neuronCount

/-- The label loop of lines 233-265: one label per layer whose node list is
nonempty, skipped entirely unless `showLabels`. -/
def buildLabels (numLayers : ℕ) (nodes : List Node) : ℕ → List LayerConfig → List String
  | _, [] => []
  | idx, layer :: rest =>
      let layerNodes := nodes.filter (fun n => n.layerIndex = idx)
      if layerNodes.isEmpty then buildLabels numLayers nodes (idx + 1) rest
      else getLayerLabel numLayers idx layer.neurons :: buildLabels numLayers nodes (idx + 1) rest

/-- The rendered layer labels (lines 233-265). -/
def computeLabels (layers : List LayerConfig) (settings : VisualSettings)
    (nodes : List Node) : List String :=
  if settings.showLabels then buildLabels layers.length nodes 0 layers else []

/-- The main-axis coordinate of a node (x when horizontal, y when vertical). -/
def mainPos (settings : VisualSettings) (nd : Node) : ℚ :=
  if settings.isHoriz then nd.x else nd.y

/-- The viewport's main-axis center. -/
def viewportMainCenter (settings : VisualSettings) (dims : Dimensions) : ℚ :=
  if settings.isHoriz then dims.width / 2 else dims.height / 2

/-- The total main-axis extent `(layers.length - 1) * layerSpacing`. -/
def mainExtent (layers : List LayerConfig) (settings : VisualSettings) : ℚ :=
  ((layers.length : ℚ) - 1) * settings.layerSpacing

/-- The positional key of a node: its layer index and index within the layer. -/
def key2 (nd : Node) : ℕ × ℕ :=
  (nd.layerIndex, nd.neuronIndex)

/-- The topological skeleton of a node: positional key plus bias flag. -/
def skel (nd : Node) : ℕ × ℕ × Bool :=
  (nd.layerIndex, nd.neuronIndex, nd.isBias)

/-- The label list produced when every layer's node list is nonempty. -/
def labelsList (numLayers : ℕ) : ℕ → List LayerConfig → List String
  | _, [] => []
  | idx, layer :: rest => getLayerLabel numLayers idx layer.neurons :: labelsList numLayers (idx + 1) rest

/-- Placeholder layer used as the default of `List.getD`. -/
def defaultLayer : LayerConfig :=
  { id := "", neurons := 0 }

/-- A concrete example architecture (the spec's worked example). -/
def layersEx : List LayerConfig :=
  [{ id := "a", neurons := 3 }, { id := "b", neurons := 2 }]

/-- Concrete example settings (the defaults of `src/types.ts` with a fixed
seed). -/
def settingsEx : VisualSettings :=
  { edgeColor := "#888888", useBezier := true, nodeDiameter := 20,
    nodeColor := "#ffffff", nodeBorderColor := "#333333", layerSpacing := 200,
    direction := Direction.horizontal, showBias := false, showLabels := true,
    arrowheads := Arrowheads.none, weightSeed := 7 }

/-- Concrete example viewport. -/
def dimsEx : Dimensions :=
  { width := 800, height := 600 }

/-- A concrete stand-in for the opaque `Math.sin(seed) * 10000` value. -/
def fEx : ℤ → ℚ :=
  fun z => (z : ℚ) * 3 / 7

/-- A concrete heap for the object-identity model: every reference holds the
first default layer. -/
def heapEx : Heap :=
  fun _ => { id := "l1", neurons := 18 }

/-- Placeholder node used as the default of `List.getD`. -/
def defaultNode : Node :=
  { id := "", layerIndex := 0, neuronIndex := 0, x := 0, y := 0, isBias := false }

/-- The first node of the layout of the concrete example. -/
def ndEx : Node :=
  (computeLayout fEx layersEx settingsEx dimsEx).1.getD 0 defaultNode

/-- The first node of layer 1 of the concrete example (node index 3). -/
def tgtEx : Node :=
  (computeLayout fEx layersEx settingsEx dimsEx).1.getD 3 defaultNode

lemma mem_mkLayerNodes_layerIndex {settings : VisualSettings} {cx cy sa : ℚ}
    {n k : ℕ} {layer : LayerConfig} {nd : Node}
    (h : nd ∈ mkLayerNodes settings cx cy sa n k layer) : nd.layerIndex = k := by
  simp only [mkLayerNodes, List.mem_map, List.mem_range] at h
  obtain ⟨i, _, rfl⟩ := h
  rfl

lemma mkLayerNodes_length (settings : VisualSettings) (cx cy sa : ℚ)
    (n k : ℕ) (layer : LayerConfig) :
    (mkLayerNodes settings cx cy sa n k layer).length =
      effectiveCount settings n k layer.neurons := by
  simp [mkLayerNodes]

lemma buildNodes_layerIndex_bounds (settings : VisualSettings) (cx cy sa : ℚ) (n : ℕ) :
    ∀ (ls : List LayerConfig) (k : ℕ) (nd : Node),
      nd ∈ buildNodes settings cx cy sa n k ls →
        k ≤ nd.layerIndex ∧ nd.layerIndex < k + ls.length := by
  intro ls
  induction ls with
  | nil => intro k nd h; simp [buildNodes] at h
  | cons layer rest ih =>
      intro k nd h
      simp only [buildNodes, List.mem_append] at h
      rcases h with h | h
      · have hk := mem_mkLayerNodes_layerIndex h
        simp only [List.length_cons, hk]
        omega
      · have hk := ih (k + 1) nd h
        simp only [List.length_cons]
        omega

lemma buildNodes_length (settings : VisualSettings) (cx cy sa : ℚ) (n : ℕ) :
    ∀ (ls : List LayerConfig) (k : ℕ),
      (buildNodes settings cx cy sa n k ls).length = effTotal settings n k ls := by
  intro ls
  induction ls with
  | nil => intro k; simp [buildNodes, effTotal]
  | cons layer rest ih =>
      intro k
      simp [buildNodes, effTotal, mkLayerNodes_length, ih (k + 1)]

lemma buildNodes_filter (settings : VisualSettings) (cx cy sa : ℚ) (n : ℕ) :
    ∀ (ls : List LayerConfig) (k idx : ℕ),
      (buildNodes settings cx cy sa n k ls).filter (fun nd => nd.layerIndex = idx) =
        if k ≤ idx ∧ idx - k < ls.length then
          mkLayerNodes settings cx cy sa n idx (ls.getD (idx - k) defaultLayer)
        else [] := by
  intro ls
  induction ls with
  | nil => intro k idx; simp [buildNodes]
  | cons layer rest ih =>
      intro k idx
      simp only [buildNodes, List.filter_append, ih (k + 1) idx]
      by_cases hki : idx = k
      · subst hki
        have h1 : (mkLayerNodes settings cx cy sa n idx layer).filter
            (fun nd => nd.layerIndex = idx) = mkLayerNodes settings cx cy sa n idx layer := by
          apply List.filter_eq_self.mpr
          intro nd hnd
          simp [mem_mkLayerNodes_layerIndex hnd]
        rw [h1]
        have h2 : ¬(idx + 1 ≤ idx ∧ idx - (idx + 1) < rest.length) := by omega
        rw [if_neg h2, if_pos (by simp only [List.length_cons]; omega)]
        simp
      · have h1 : (mkLayerNodes settings cx cy sa n k layer).filter
            (fun nd => nd.layerIndex = idx) = [] := by
          apply List.filter_eq_nil_iff.mpr
          intro nd hnd
          simp [mem_mkLayerNodes_layerIndex hnd]
          omega
        rw [h1]
        simp only [List.nil_append, List.length_cons]
        by_cases h2 : k + 1 ≤ idx ∧ idx - (k + 1) < rest.length
        · rw [if_pos h2, if_pos (by omega)]
          have h3 : idx - k = (idx - (k + 1)) + 1 := by omega
          rw [h3, List.getD_cons_succ]
        · rw [if_neg h2, if_neg (by omega)]

lemma mkLayerNodes_map_isBias (settings : VisualSettings) (cx cy sa : ℚ)
    (n k : ℕ) (layer : LayerConfig) :
    (mkLayerNodes settings cx cy sa n k layer).map (fun nd => nd.isBias) =
      if settings.showBias = true ∧ k ≠ n - 1 then
        List.replicate layer.neurons false ++ [true]
      else List.replicate layer.neurons false := by
  have hmap : (mkLayerNodes settings cx cy sa n k layer).map (fun nd => nd.isBias) =
      (List.range (effectiveCount settings n k layer.neurons)).map
        (fun i => settings.showBias && decide (k ≠ n - 1) &&
          decide (i = effectiveCount settings n k layer.neurons - 1)) := by
    simp [mkLayerNodes, List.map_map, Function.comp]
  rw [hmap]
  by_cases hb : settings.showBias = true ∧ k ≠ n - 1
  · rw [if_pos hb]
    have heff : effectiveCount settings n k layer.neurons = layer.neurons + 1 := by
      simp [effectiveCount, hb]
    rw [heff, List.range_succ, List.map_append]
    congr 1
    · refine List.eq_replicate_iff.mpr ⟨by simp, ?_⟩
      intro b hmem
      simp only [List.mem_map, List.mem_range] at hmem
      obtain ⟨i, hi, rfl⟩ := hmem
      simp
      intro _ _
      omega
    · simp [hb.1, hb.2]
  · rw [if_neg hb]
    have heff : effectiveCount settings n k layer.neurons = layer.neurons := by
      simp only [effectiveCount, if_neg hb]
    rw [heff]
    refine List.eq_replicate_iff.mpr ⟨by simp, ?_⟩
    intro b hmem
    simp only [List.mem_map, List.mem_range] at hmem
    obtain ⟨i, hi, rfl⟩ := hmem
    rcases Decidable.not_and_iff_or_not.mp hb with hb' | hb'
    · have : settings.showBias = false := by
        cases h : settings.showBias
        · rfl
        · exact absurd h hb'
      simp [this]
    · have : k = n - 1 := Decidable.not_not.mp hb'
      simp [this]

lemma effTotal_toggle (settings : VisualSettings) (n : ℕ) :
    ∀ (ls : List LayerConfig) (k : ℕ),
      effTotal { settings with showBias := true } n k ls =
        effTotal { settings with showBias := false } n k ls + nonFinalCount n k ls := by
  intro ls
  induction ls with
  | nil => intro k; simp [effTotal, nonFinalCount]
  | cons layer rest ih =>
      intro k
      simp only [effTotal, nonFinalCount, ih (k + 1)]
      by_cases hk : k ≠ n - 1
      · have h1 : effectiveCount { settings with showBias := true } n k layer.neurons =
            layer.neurons + 1 := by
          simp [effectiveCount, hk]
        have h2 : effectiveCount { settings with showBias := false } n k layer.neurons =
            layer.neurons := by
          simp [effectiveCount]
        rw [h1, h2, if_pos hk]
        omega
      · have hk' : k = n - 1 := Decidable.not_not.mp hk
        have h1 : effectiveCount { settings with showBias := true } n k layer.neurons =
            layer.neurons := by
          simp [effectiveCount, hk']
        have h2 : effectiveCount { settings with showBias := false } n k layer.neurons =
            layer.neurons := by
          simp [effectiveCount]
        rw [h1, h2, if_neg hk]
        omega

lemma nonFinalCount_eq (n : ℕ) :
    ∀ (ls : List LayerConfig) (k : ℕ), k + ls.length = n →
      nonFinalCount n k ls = ls.length - 1 := by
  intro ls
  induction ls with
  | nil => intro k _; simp [nonFinalCount]
  | cons layer rest ih =>
      intro k h
      simp only [List.length_cons] at h
      simp only [nonFinalCount, List.length_cons]
      by_cases hk : k ≠ n - 1
      · rw [if_pos hk, ih (k + 1) (by omega)]
        omega
      · rw [if_neg hk]
        have hr : rest.length = 0 := by omega
        rw [List.length_eq_zero.mp hr]
        simp [nonFinalCount]

/-- C1: the layout produces exactly the sum over layers of the effective
node counts; in each layer's node list the bias node, when present, is the
unique last node; and toggling `showBias` on adds exactly one node per
non-final layer. -/
theorem nnviz_c1 (sinTimes10000 : ℤ → ℚ) (layers : List LayerConfig)
    (settings : VisualSettings) (dims : Dimensions) :
    (computeLayout sinTimes10000 layers settings dims).1.length =
        effTotal settings layers.length 0 layers ∧
      (∀ idx : ℕ, idx < layers.length →
        ((computeLayout sinTimes10000 layers settings dims).1.filter
            (fun nd => nd.layerIndex = idx)).map (fun nd => nd.isBias) =
          if settings.showBias = true ∧ idx ≠ layers.length - 1 then
            List.replicate (layers.getD idx defaultLayer).neurons false ++ [true]
          else List.replicate (layers.getD idx defaultLayer).neurons false) ∧
      (computeLayout sinTimes10000 layers { settings with showBias := true } dims).1.length =
        (computeLayout sinTimes10000 layers { settings with showBias := false } dims).1.length +
          (layers.length - 1) := by
  refine ⟨?_, ?_, ?_⟩
  · show (computeNodes settings dims layers).length = _
    simp only [computeNodes]
    exact buildNodes_length _ _ _ _ _ _ _
  · intro idx hidx
    show ((computeNodes settings dims layers).filter _).map _ = _
    simp only [computeNodes]
    rw [buildNodes_filter settings _ _ _ layers.length layers 0 idx,
      if_pos ⟨Nat.zero_le idx, by simpa using hidx⟩, Nat.sub_zero]
    exact mkLayerNodes_map_isBias _ _ _ _ _ _ _
  · show (computeNodes { settings with showBias := true } dims layers).length =
      (computeNodes { settings with showBias := false } dims layers).length + _
    simp only [computeNodes]
    rw [buildNodes_length, buildNodes_length, effTotal_toggle settings layers.length layers 0,
      nonFinalCount_eq layers.length layers 0 (by simp)]

/-- Witness for C1 at the spec's worked example: layer 0 of the two-layer
example carries no bias nodes when `showBias` is off. -/
theorem nnviz_c1_witness :
    (0 : ℕ) < layersEx.length ∧
      ((computeLayout fEx layersEx settingsEx dimsEx).1.filter
          (fun nd => nd.layerIndex = 0)).map (fun nd => nd.isBias) =
        (if settingsEx.showBias = true ∧ (0 : ℕ) ≠ layersEx.length - 1 then
          List.replicate (layersEx.getD 0 defaultLayer).neurons false ++ [true]
        else List.replicate (layersEx.getD 0 defaultLayer).neurons false) :=
  ⟨by decide, (nnviz_c1 fEx layersEx settingsEx dimsEx).2.1 0 (by decide)⟩

/-- C6: for the empty layer sequence the layout computation is total and
returns no nodes and no links, for every settings, viewport and sine
approximation. -/
theorem nnviz_c6 (sinTimes10000 : ℤ → ℚ) (settings : VisualSettings) (dims : Dimensions) :
    computeLayout sinTimes10000 [] settings dims = ([], []) :=
  rfl

/-- C9: the graph computation as written, with the dead `maxNeurons`
binding of line 51, is extensionally equal to the computation with that
binding removed. -/
theorem nnviz_c9 (sinTimes10000 : ℤ → ℚ) (layers : List LayerConfig)
    (settings : VisualSettings) (dims : Dimensions) :
    computeLayoutWithMax sinTimes10000 layers settings dims =
      computeLayout sinTimes10000 layers settings dims :=
  rfl

/-- C7: `updateLayerNeuron` clamps the written neuron count to `[1, 50]`:
setting 0 yields 1, setting 75 yields 50, and every written value lies in
the range, for every in-range layer index. -/
theorem nnviz_c7 (layers : List LayerConfig) (index : ℕ) (value : ℤ)
    (h : index < layers.length) :
    ((updateLayerNeuron layers index 0).getD index defaultLayer).neurons = 1 ∧
    ((updateLayerNeuron layers index 75).getD index defaultLayer).neurons = 50 ∧
    1 ≤ ((updateLayerNeuron layers index value).getD index defaultLayer).neurons ∧
    ((updateLayerNeuron layers index value).getD index defaultLayer).neurons ≤ 50 := by
  have hset : ∀ v : ℤ,
      ((updateLayerNeuron layers index v).getD index defaultLayer).neurons =
        (clampNeurons v).toNat := by
    intro v
    simp only [updateLayerNeuron, List.getElem?_eq_getElem h]
    rw [List.getD_eq_getElem?_getD, List.getElem?_set_self (by simpa using h)]
    rfl
  rw [hset, hset, hset]
  simp only [clampNeurons]
  omega

/-- Witness for C7: in the two-layer example, writing 0, 75 and -4 to layer
0 stores 1, 50 and an in-range value. -/
theorem nnviz_c7_witness :
    (0 : ℕ) < layersEx.length ∧
      ((updateLayerNeuron layersEx 0 0).getD 0 defaultLayer).neurons = 1 ∧
      ((updateLayerNeuron layersEx 0 75).getD 0 defaultLayer).neurons = 50 ∧
      1 ≤ ((updateLayerNeuron layersEx 0 (-4)).getD 0 defaultLayer).neurons ∧
      ((updateLayerNeuron layersEx 0 (-4)).getD 0 defaultLayer).neurons ≤ 50 :=
  ⟨by decide, nnviz_c7 layersEx 0 (-4) (by decide)⟩

lemma mem_mkLayerNodes_mainPos {settings : VisualSettings} {cx cy sa : ℚ}
    {n k : ℕ} {layer : LayerConfig} {nd : Node}
    (h : nd ∈ mkLayerNodes settings cx cy sa n k layer) :
    (if settings.isHoriz then nd.x else nd.y) = sa + (k : ℚ) * settings.layerSpacing := by
  simp only [mkLayerNodes, List.mem_map, List.mem_range] at h
  obtain ⟨i, _, rfl⟩ := h
  cases hh : settings.isHoriz <;> simp [hh]

lemma mem_buildNodes_mainPos (settings : VisualSettings) (cx cy sa : ℚ) (n : ℕ) :
    ∀ (ls : List LayerConfig) (k : ℕ) (nd : Node),
      nd ∈ buildNodes settings cx cy sa n k ls →
        (if settings.isHoriz then nd.x else nd.y) =
          sa + (nd.layerIndex : ℚ) * settings.layerSpacing := by
  intro ls
  induction ls with
  | nil => intro k nd h; simp [buildNodes] at h
  | cons layer rest ih =>
      intro k nd h
      simp only [buildNodes, List.mem_append] at h
      rcases h with h | h
      · rw [mem_mkLayerNodes_layerIndex h]
        exact mem_mkLayerNodes_mainPos h
      · exact ih (k + 1) nd h

lemma neurons_le_effectiveCount (settings : VisualSettings) (n k m : ℕ) :
    m ≤ effectiveCount settings n k m := by
  simp only [effectiveCount]
  split_ifs <;> omega

lemma exists_node_layer (settings : VisualSettings) (cx cy sa : ℚ) (n : ℕ)
    (ls : List LayerConfig) (k idx : ℕ) (hidx : k ≤ idx ∧ idx - k < ls.length)
    (hne : 1 ≤ (ls.getD (idx - k) defaultLayer).neurons) :
    ∃ nd ∈ buildNodes settings cx cy sa n k ls, nd.layerIndex = idx := by
  have hfil := buildNodes_filter settings cx cy sa n ls k idx
  rw [if_pos hidx] at hfil
  have hlen : 0 < ((buildNodes settings cx cy sa n k ls).filter
      (fun nd => nd.layerIndex = idx)).length := by
    rw [hfil, mkLayerNodes_length]
    have := neurons_le_effectiveCount settings n idx (ls.getD (idx - k) defaultLayer).neurons
    omega
  obtain ⟨nd, hnd⟩ := List.exists_mem_of_length_pos hlen
  rw [List.mem_filter] at hnd
  exact ⟨nd, hnd.1, by simpa using hnd.2⟩

/-- C5: every node's main-axis coordinate is the centered affine formula;
consecutive layers differ by exactly `layerSpacing`; the set of main-axis
coordinates is exactly the centered arithmetic progression over the layer
indices and is symmetric about the viewport's main-axis center. -/
theorem nnviz_c5 (sinTimes10000 : ℤ → ℚ) (layers : List LayerConfig)
    (settings : VisualSettings) (dims : Dimensions)
    (_hlen : 2 ≤ layers.length) (hneu : ∀ l ∈ layers, 1 ≤ l.neurons) :
    (∀ nd ∈ (computeLayout sinTimes10000 layers settings dims).1,
        mainPos settings nd =
          viewportMainCenter settings dims - mainExtent layers settings / 2 +
            (nd.layerIndex : ℚ) * settings.layerSpacing) ∧
      (∀ a ∈ (computeLayout sinTimes10000 layers settings dims).1,
        ∀ b ∈ (computeLayout sinTimes10000 layers settings dims).1,
          b.layerIndex = a.layerIndex + 1 →
            mainPos settings b - mainPos settings a = settings.layerSpacing) ∧
      (∀ q : ℚ,
        (∃ nd ∈ (computeLayout sinTimes10000 layers settings dims).1,
            mainPos settings nd = q) ↔
          ∃ kk : ℕ, kk < layers.length ∧
            q = viewportMainCenter settings dims - mainExtent layers settings / 2 +
              (kk : ℚ) * settings.layerSpacing) ∧
      (∀ q : ℚ,
        (∃ nd ∈ (computeLayout sinTimes10000 layers settings dims).1,
            mainPos settings nd = q) ↔
          ∃ nd ∈ (computeLayout sinTimes10000 layers settings dims).1,
            mainPos settings nd = 2 * viewportMainCenter settings dims - q) := by
  have hnodes : (computeLayout sinTimes10000 layers settings dims).1 =
      computeNodes settings dims layers := rfl
  have hcenter : (if settings.isHoriz then dims.width / 2 else dims.height / 2) =
      viewportMainCenter settings dims := by
    simp [viewportMainCenter]
  have h1 : ∀ nd ∈ (computeLayout sinTimes10000 layers settings dims).1,
      mainPos settings nd =
        viewportMainCenter settings dims - mainExtent layers settings / 2 +
          (nd.layerIndex : ℚ) * settings.layerSpacing := by
    intro nd hnd
    rw [hnodes] at hnd
    simp only [computeNodes] at hnd
    have := mem_buildNodes_mainPos settings (dims.width / 2) (dims.height / 2)
      ((if settings.isHoriz then dims.width / 2 else dims.height / 2) -
        ((layers.length : ℚ) - 1) * settings.layerSpacing / 2)
      layers.length layers 0 nd hnd
    rw [mainPos, this, hcenter, mainExtent]
  have hbound : ∀ nd ∈ (computeLayout sinTimes10000 layers settings dims).1,
      nd.layerIndex < layers.length := by
    intro nd hnd
    rw [hnodes] at hnd
    simp only [computeNodes] at hnd
    have := buildNodes_layerIndex_bounds settings _ _ _ _ layers 0 nd hnd
    omega
  have hex : ∀ kk : ℕ, kk < layers.length →
      ∃ nd ∈ (computeLayout sinTimes10000 layers settings dims).1, nd.layerIndex = kk := by
    intro kk hkk
    rw [hnodes]
    simp only [computeNodes]
    apply exists_node_layer settings _ _ _ _ layers 0 kk ⟨Nat.zero_le kk, by simpa using hkk⟩
    have hmem : layers.getD (kk - 0) defaultLayer ∈ layers := by
      rw [Nat.sub_zero, List.getD_eq_getElem layers defaultLayer hkk]
      exact List.getElem_mem hkk
    exact hneu _ hmem
  have h3 : ∀ q : ℚ,
      (∃ nd ∈ (computeLayout sinTimes10000 layers settings dims).1,
          mainPos settings nd = q) ↔
        ∃ kk : ℕ, kk < layers.length ∧
          q = viewportMainCenter settings dims - mainExtent layers settings / 2 +
            (kk : ℚ) * settings.layerSpacing := by
    intro q
    constructor
    · rintro ⟨nd, hnd, rfl⟩
      exact ⟨nd.layerIndex, hbound nd hnd, (h1 nd hnd)⟩
    · rintro ⟨kk, hkk, rfl⟩
      obtain ⟨nd, hnd, hlix⟩ := hex kk hkk
      refine ⟨nd, hnd, ?_⟩
      rw [h1 nd hnd, hlix]
  refine ⟨h1, ?_, h3, ?_⟩
  · intro a ha b hb hab
    rw [h1 a ha, h1 b hb, hab]
    push_cast
    ring
  · intro q
    have hrefl : ∀ r : ℚ,
        (∃ nd ∈ (computeLayout sinTimes10000 layers settings dims).1,
            mainPos settings nd = r) →
          ∃ nd ∈ (computeLayout sinTimes10000 layers settings dims).1,
            mainPos settings nd = 2 * viewportMainCenter settings dims - r := by
      intro r hr
      obtain ⟨kk, hkk, rfl⟩ := (h3 r).mp hr
      refine (h3 _).mpr ⟨layers.length - 1 - kk, by omega, ?_⟩
      have hcast : ((layers.length - 1 - kk : ℕ) : ℚ) =
          (layers.length : ℚ) - 1 - (kk : ℚ) := by
        push_cast [Nat.cast_sub (by omega : kk ≤ layers.length - 1),
          Nat.cast_sub (by omega : 1 ≤ layers.length)]
        ring
      rw [hcast, mainExtent]
      ring
    constructor
    · exact hrefl q
    · intro h
      have := hrefl _ h
      simpa using this

/-- Witness for C5: the first node of the concrete example layout sits at
the centered affine main-axis position. -/
theorem nnviz_c5_witness :
    2 ≤ layersEx.length ∧
      mainPos settingsEx ndEx =
        viewportMainCenter settingsEx dimsEx - mainExtent layersEx settingsEx / 2 +
          (ndEx.layerIndex : ℚ) * settingsEx.layerSpacing :=
  ⟨by decide,
    (nnviz_c5 fEx layersEx settingsEx dimsEx (by decide) (by decide)).1 ndEx
      (by
        show (computeLayout fEx layersEx settingsEx dimsEx).1.getD 0 defaultNode ∈
          (computeLayout fEx layersEx settingsEx dimsEx).1
        have h0 : 0 < (computeLayout fEx layersEx settingsEx dimsEx).1.length := by decide
        rw [List.getD_eq_getElem _ _ h0]
        exact List.getElem_mem h0)⟩

lemma pushLinks_snd (sinTimes10000 : ℤ → ℚ) (s : Node) :
    ∀ (ts : List Node) (c : ℤ),
      (pushLinks sinTimes10000 s ts c).2 = c + (pushLinks sinTimes10000 s ts c).1.length := by
  intro ts
  induction ts with
  | nil => intro c; simp [pushLinks]
  | cons t rest ih =>
      intro c
      by_cases hb : t.isBias
      · simp only [pushLinks, if_pos hb]
        exact ih c
      · simp only [pushLinks, if_neg hb, List.length_cons]
        rw [ih (c + 1)]
        push_cast
        ring

lemma pushLinks_weights (sinTimes10000 : ℤ → ℚ) (s : Node) :
    ∀ (ts : List Node) (c : ℤ),
      (pushLinks sinTimes10000 s ts c).1.map (fun l => l.weight) =
        (List.range (pushLinks sinTimes10000 s ts c).1.length).map
          (fun k : ℕ => seededRandom sinTimes10000 (c + k)) := by
  intro ts
  induction ts with
  | nil => intro c; simp [pushLinks]
  | cons t rest ih =>
      intro c
      by_cases hb : t.isBias
      · simp only [pushLinks, if_pos hb]
        exact ih c
      · simp only [pushLinks, if_neg hb, List.map_cons, List.length_cons]
        rw [ih (c + 1), List.range_succ_eq_map, List.map_cons, List.map_map]
        congr 1
        · simp
        · apply List.map_congr_left
          intro k _
          simp only [Function.comp_apply]
          congr 1
          push_cast
          ring

lemma genLinks_snd (sinTimes10000 : ℤ → ℚ) (all : List Node) :
    ∀ (ss : List Node) (c : ℤ),
      (genLinks sinTimes10000 all ss c).2 =
        c + (genLinks sinTimes10000 all ss c).1.length := by
  intro ss
  induction ss with
  | nil => intro c; simp [genLinks]
  | cons s rest ih =>
      intro c
      simp only [genLinks, List.length_append]
      rw [ih, pushLinks_snd]
      push_cast
      ring

lemma genLinks_weights (sinTimes10000 : ℤ → ℚ) (all : List Node) :
    ∀ (ss : List Node) (c : ℤ),
      (genLinks sinTimes10000 all ss c).1.map (fun l => l.weight) =
        (List.range (genLinks sinTimes10000 all ss c).1.length).map
          (fun k : ℕ => seededRandom sinTimes10000 (c + k)) := by
  intro ss
  induction ss with
  | nil => intro c; simp [genLinks]
  | cons s rest ih =>
      intro c
      simp only [genLinks, List.map_append, List.length_append]
      rw [pushLinks_weights, ih, pushLinks_snd, List.range_add, List.map_append, List.map_map]
      congr 1
      apply List.map_congr_left
      intro k _
      simp only [Function.comp_apply]
      congr 1
      push_cast
      ring

lemma computeLayout_weights (sinTimes10000 : ℤ → ℚ) (layers : List LayerConfig)
    (settings : VisualSettings) (dims : Dimensions) :
    (computeLayout sinTimes10000 layers settings dims).2.map (fun l => l.weight) =
      (List.range (computeLayout sinTimes10000 layers settings dims).2.length).map
        (fun k : ℕ => seededRandom sinTimes10000 (settings.weightSeed + k)) :=
  genLinks_weights sinTimes10000 _ _ settings.weightSeed

lemma pushLinks_length (sinTimes10000 : ℤ → ℚ) (s : Node) :
    ∀ (ts : List Node) (c : ℤ),
      (pushLinks sinTimes10000 s ts c).1.length = ts.countP (fun t => !t.isBias) := by
  intro ts
  induction ts with
  | nil => intro c; simp [pushLinks]
  | cons t rest ih =>
      intro c
      by_cases hb : t.isBias
      · simp only [pushLinks, if_pos hb]
        rw [ih c, List.countP_cons]
        simp [hb]
      · simp only [pushLinks, if_neg hb, List.length_cons]
        rw [ih (c + 1), List.countP_cons]
        simp [hb]

lemma genLinks_length (sinTimes10000 : ℤ → ℚ) (all : List Node) :
    ∀ (ss : List Node) (c : ℤ),
      (genLinks sinTimes10000 all ss c).1.length =
        (ss.map (fun s => all.countP
          (fun t => !t.isBias && decide (t.layerIndex = s.layerIndex + 1)))).sum := by
  intro ss
  induction ss with
  | nil => intro c; simp [genLinks]
  | cons s rest ih =>
      intro c
      simp only [genLinks, List.length_append, List.map_cons, List.sum_cons]
      rw [pushLinks_length, List.countP_filter, ih]

lemma mkLayerNodes_map_skel (settings : VisualSettings) (cx cy sa : ℚ)
    (n k : ℕ) (layer : LayerConfig) :
    (mkLayerNodes settings cx cy sa n k layer).map skel =
      (List.range (effectiveCount settings n k layer.neurons)).map
        (fun i => (k, i, settings.showBias && decide (k ≠ n - 1) &&
          decide (i = effectiveCount settings n k layer.neurons - 1))) := by
  simp [mkLayerNodes, List.map_map, Function.comp, skel]

lemma effectiveCount_congr {s1 s2 : VisualSettings} (hb : s1.showBias = s2.showBias)
    (n k m : ℕ) : effectiveCount s1 n k m = effectiveCount s2 n k m := by
  simp [effectiveCount, hb]

lemma buildNodes_skel {s1 s2 : VisualSettings} (hb : s1.showBias = s2.showBias)
    (cx1 cy1 sa1 cx2 cy2 sa2 : ℚ) (n : ℕ) :
    ∀ (ls : List LayerConfig) (k : ℕ),
      (buildNodes s1 cx1 cy1 sa1 n k ls).map skel =
        (buildNodes s2 cx2 cy2 sa2 n k ls).map skel := by
  intro ls
  induction ls with
  | nil => intro k; simp [buildNodes]
  | cons layer rest ih =>
      intro k
      simp only [buildNodes, List.map_append]
      rw [mkLayerNodes_map_skel, mkLayerNodes_map_skel, ih (k + 1),
        effectiveCount_congr hb, hb]

lemma computeNodes_skel {s1 s2 : VisualSettings} {d1 d2 : Dimensions}
    (layers : List LayerConfig) (hb : s1.showBias = s2.showBias) :
    (computeNodes s1 d1 layers).map skel = (computeNodes s2 d2 layers).map skel := by
  simp only [computeNodes]
  exact buildNodes_skel hb _ _ _ _ _ _ _ layers 0

lemma genLinks_length_skel (sinTimes10000 : ℤ → ℚ) (all ss : List Node) (c : ℤ) :
    (genLinks sinTimes10000 all ss c).1.length =
      ((ss.map skel).map (fun p => (all.map skel).countP
        (fun q => !q.2.2 && decide (q.1 = p.1 + 1)))).sum := by
  rw [genLinks_length]
  simp only [List.map_map, List.countP_map]
  rfl

/-- C3: the k-th emitted link weight is `seededRandom` applied to
`weightSeed + k`; the final counter is `weightSeed` plus the number of
emitted links (one increment per link); and two invocations with the same
`weightSeed`, `showBias` and layer list produce identical weight
sequences. -/
theorem nnviz_c3 (sinTimes10000 : ℤ → ℚ) (layers : List LayerConfig)
    (settings : VisualSettings) (dims : Dimensions) :
    (∀ k : ℕ, k < (computeLayout sinTimes10000 layers settings dims).2.length →
        ((computeLayout sinTimes10000 layers settings dims).2.map
            (fun l => l.weight)).getD k 0 =
          seededRandom sinTimes10000 (settings.weightSeed + k)) ∧
      (genLinks sinTimes10000 (computeNodes settings dims layers)
          (computeNodes settings dims layers) settings.weightSeed).2 =
        settings.weightSeed +
          (computeLayout sinTimes10000 layers settings dims).2.length ∧
      (∀ (settings2 : VisualSettings) (dims2 : Dimensions),
        settings2.weightSeed = settings.weightSeed →
        settings2.showBias = settings.showBias →
        (computeLayout sinTimes10000 layers settings2 dims2).2.map (fun l => l.weight) =
          (computeLayout sinTimes10000 layers settings dims).2.map (fun l => l.weight)) := by
  refine ⟨?_, ?_, ?_⟩
  · intro k hk
    rw [computeLayout_weights]
    have hlen : k < ((List.range
        ((computeLayout sinTimes10000 layers settings dims).2.length)).map
          (fun k : ℕ => seededRandom sinTimes10000 (settings.weightSeed + k))).length := by
      simpa using hk
    rw [List.getD_eq_getElem _ _ hlen, List.getElem_map, List.getElem_range]
  · exact genLinks_snd sinTimes10000 _ _ settings.weightSeed
  · intro settings2 dims2 hseed hbias
    rw [computeLayout_weights, computeLayout_weights, hseed]
    have hlen : (computeLayout sinTimes10000 layers settings2 dims2).2.length =
        (computeLayout sinTimes10000 layers settings dims).2.length := by
      show (genLinks sinTimes10000 (computeNodes settings2 dims2 layers)
          (computeNodes settings2 dims2 layers) settings2.weightSeed).1.length = _
      rw [genLinks_length_skel,
        computeNodes_skel layers (hbias : settings2.showBias = settings.showBias)]
      exact (genLinks_length_skel sinTimes10000 (computeNodes settings dims layers)
        (computeNodes settings dims layers) settings.weightSeed).symm
    rw [hlen]

/-- Witness for C3: in the concrete example the first link's weight is
`seededRandom` at the seed itself. -/
theorem nnviz_c3_witness :
    (0 : ℕ) < (computeLayout fEx layersEx settingsEx dimsEx).2.length ∧
      ((computeLayout fEx layersEx settingsEx dimsEx).2.map
          (fun l => l.weight)).getD 0 0 =
        seededRandom fEx (settingsEx.weightSeed + (0 : ℕ)) :=
  ⟨by decide, (nnviz_c3 fEx layersEx settingsEx dimsEx).1 0 (by decide)⟩

lemma labelsList_length (n : ℕ) :
    ∀ (ls : List LayerConfig) (k : ℕ), (labelsList n k ls).length = ls.length := by
  intro ls
  induction ls with
  | nil => intro k; simp [labelsList]
  | cons layer rest ih => intro k; simp [labelsList, ih (k + 1)]

lemma labelsList_getD (n : ℕ) :
    ∀ (ls : List LayerConfig) (k j : ℕ), j < ls.length →
      (labelsList n k ls).getD j "" =
        getLayerLabel n (k + j) (ls.getD j defaultLayer).neurons := by
  intro ls
  induction ls with
  | nil => intro k j h; simp at h
  | cons layer rest ih =>
      intro k j h
      cases j with
      | zero => simp [labelsList]
      | succ j' =>
          simp only [labelsList, List.getD_cons_succ]
          rw [ih (k + 1) j' (by simpa using h)]
          congr 1
          omega

lemma buildLabels_eq (n : ℕ) (nodes : List Node) :
    ∀ (ls : List LayerConfig) (k : ℕ),
      (∀ j, j < ls.length →
        (nodes.filter (fun nd => nd.layerIndex = k + j)).isEmpty = false) →
      buildLabels n nodes k ls = labelsList n k ls := by
  intro ls
  induction ls with
  | nil => intro k _; simp [buildLabels, labelsList]
  | cons layer rest ih =>
      intro k hne
      have h0 : (nodes.filter (fun nd => nd.layerIndex = k)).isEmpty = false := by
        have := hne 0 (by simp)
        simpa using this
      simp only [buildLabels, labelsList, h0]
      simp only [Bool.false_eq_true, if_false]
      congr 1
      apply ih (k + 1)
      intro j hj
      have := hne (j + 1) (by simpa using hj)
      have harith : k + 1 + j = k + (j + 1) := by omega
      rw [harith]
      exact this

lemma getLayerLabel_eq (n idx m : ℕ) :
    getLayerLabel n idx m =
      (if idx = 0 then "Input Layer ∈ R"
       else if idx = n - 1 then "Output Layer ∈ R"
       else "Hidden Layer ∈ R") ++ getSuperscript m := by
  unfold getLayerLabel
  split_ifs <;> rfl

/-- C8: when `showLabels` is on, exactly one label is produced per layer,
reading Input/Output/Hidden by position, annotated with the layer's raw
`neurons` count rendered as superscript glyphs. -/
theorem nnviz_c8 (sinTimes10000 : ℤ → ℚ) (layers : List LayerConfig)
    (settings : VisualSettings) (dims : Dimensions)
    (hsl : settings.showLabels = true) (hneu : ∀ l ∈ layers, 1 ≤ l.neurons) :
    (computeLabels layers settings
        (computeLayout sinTimes10000 layers settings dims).1).length = layers.length ∧
      ∀ idx : ℕ, idx < layers.length →
        (computeLabels layers settings
            (computeLayout sinTimes10000 layers settings dims).1).getD idx "" =
          (if idx = 0 then "Input Layer ∈ R"
           else if idx = layers.length - 1 then "Output Layer ∈ R"
           else "Hidden Layer ∈ R") ++
            getSuperscript (layers.getD idx defaultLayer).neurons := by
  have hnodes : (computeLayout sinTimes10000 layers settings dims).1 =
      computeNodes settings dims layers := rfl
  have hfil : ∀ j, j < layers.length →
      (((computeLayout sinTimes10000 layers settings dims).1.filter
        (fun nd => nd.layerIndex = 0 + j))).isEmpty = false := by
    intro j hj
    rw [hnodes]
    simp only [computeNodes]
    rw [buildNodes_filter settings _ _ _ layers.length layers 0 (0 + j),
      if_pos ⟨by omega, by simpa using hj⟩]
    have hmem : layers.getD (0 + j - 0) defaultLayer ∈ layers := by
      rw [Nat.sub_zero, Nat.zero_add, List.getD_eq_getElem layers defaultLayer hj]
      exact List.getElem_mem hj
    have hge := neurons_le_effectiveCount settings layers.length (0 + j)
      (layers.getD (0 + j - 0) defaultLayer).neurons
    have h1 := hneu _ hmem
    rw [List.isEmpty_eq_false]
    intro hcontra
    have := mkLayerNodes_length settings
      (dims.width / 2) (dims.height / 2)
      ((if settings.isHoriz then dims.width / 2 else dims.height / 2) -
        ((layers.length : ℚ) - 1) * settings.layerSpacing / 2)
      layers.length (0 + j) (layers.getD (0 + j - 0) defaultLayer)
    rw [hcontra] at this
    simp only [List.length_nil] at this
    omega
  have hlabels : computeLabels layers settings
      (computeLayout sinTimes10000 layers settings dims).1 =
        labelsList layers.length 0 layers := by
    simp only [computeLabels, hsl, if_true]
    exact buildLabels_eq layers.length _ layers 0 hfil
  constructor
  · rw [hlabels, labelsList_length]
  · intro idx hidx
    rw [hlabels, labelsList_getD layers.length layers 0 idx hidx, Nat.zero_add,
      getLayerLabel_eq]

/-- Witness for C8: the concrete example produces one label per layer. -/
theorem nnviz_c8_witness :
    settingsEx.showLabels = true ∧
      (computeLabels layersEx settingsEx
        (computeLayout fEx layersEx settingsEx dimsEx).1).length = layersEx.length :=
  ⟨by decide, (nnviz_c8 fEx layersEx settingsEx dimsEx (by decide) (by decide)).1⟩

lemma mem_pushLinks (sinTimes10000 : ℤ → ℚ) (s : Node) :
    ∀ (ts : List Node) (c : ℤ) (l : Link), l ∈ (pushLinks sinTimes10000 s ts c).1 →
      l.source = s ∧ l.target ∈ ts ∧ l.target.isBias = false ∧
        l.id = linkId s.id l.target.id := by
  intro ts
  induction ts with
  | nil => intro c l h; simp [pushLinks] at h
  | cons t rest ih =>
      intro c l h
      by_cases hb : t.isBias
      · simp only [pushLinks, if_pos hb] at h
        have := ih c l h
        exact ⟨this.1, List.mem_cons_of_mem t this.2.1, this.2.2⟩
      · simp only [pushLinks, if_neg hb, List.mem_cons] at h
        rcases h with h | h
        · subst h
          refine ⟨rfl, List.mem_cons_self t rest, ?_, rfl⟩
          simp at hb
          exact hb
        · have := ih (c + 1) l h
          exact ⟨this.1, List.mem_cons_of_mem t this.2.1, this.2.2⟩

lemma mem_genLinks (sinTimes10000 : ℤ → ℚ) (all : List Node) :
    ∀ (ss : List Node) (c : ℤ) (l : Link), l ∈ (genLinks sinTimes10000 all ss c).1 →
      l.source ∈ ss ∧ l.target ∈ all ∧
        l.target.layerIndex = l.source.layerIndex + 1 ∧ l.target.isBias = false ∧
        l.id = linkId l.source.id l.target.id := by
  intro ss
  induction ss with
  | nil => intro c l h; simp [genLinks] at h
  | cons s rest ih =>
      intro c l h
      simp only [genLinks, List.mem_append] at h
      rcases h with h | h
      · obtain ⟨hsrc, htgt, hbias, hid⟩ := mem_pushLinks sinTimes10000 s _ c l h
        rw [List.mem_filter] at htgt
        refine ⟨by rw [hsrc]; exact List.mem_cons_self s rest, htgt.1, ?_, hbias, ?_⟩
        · rw [hsrc]
          simpa using htgt.2
        · rw [hsrc]
          exact hid
      · have := ih _ l h
        exact ⟨List.mem_cons_of_mem s this.1, this.2⟩

lemma pushLinks_countP (sinTimes10000 : ℤ → ℚ) (s : Node) (g : Node → Node → Bool) :
    ∀ (ts : List Node) (c : ℤ),
      (pushLinks sinTimes10000 s ts c).1.countP (fun l => g l.source l.target) =
        (ts.filter (fun t => !t.isBias)).countP (fun t => g s t) := by
  intro ts
  induction ts with
  | nil => intro c; simp [pushLinks]
  | cons t rest ih =>
      intro c
      by_cases hb : t.isBias
      · simp only [pushLinks, if_pos hb, List.filter_cons, hb]
        simp only [Bool.not_true, Bool.false_eq_true, if_false]
        exact ih c
      · have hb' : t.isBias = false := by simpa using hb
        simp only [pushLinks]
        rw [if_neg hb]
        simp [List.countP_cons, List.filter_cons, hb', ih (c + 1)]

lemma genLinks_countP (sinTimes10000 : ℤ → ℚ) (all : List Node) (g : Node → Node → Bool) :
    ∀ (ss : List Node) (c : ℤ),
      (genLinks sinTimes10000 all ss c).1.countP (fun l => g l.source l.target) =
        (ss.map (fun s =>
          ((all.filter (fun n => n.layerIndex = s.layerIndex + 1)).filter
            (fun t => !t.isBias)).countP (fun t => g s t))).sum := by
  intro ss
  induction ss with
  | nil => intro c; simp [genLinks]
  | cons s rest ih =>
      intro c
      simp only [genLinks, List.countP_append, List.map_cons, List.sum_cons]
      rw [pushLinks_countP, ih]

lemma mkLayerNodes_map_key2 (settings : VisualSettings) (cx cy sa : ℚ)
    (n k : ℕ) (layer : LayerConfig) :
    (mkLayerNodes settings cx cy sa n k layer).map key2 =
      (List.range (effectiveCount settings n k layer.neurons)).map (fun i => (k, i)) := by
  simp [mkLayerNodes, List.map_map, Function.comp, key2]

lemma buildNodes_map_key2_nodup (settings : VisualSettings) (cx cy sa : ℚ) (n : ℕ) :
    ∀ (ls : List LayerConfig) (k : ℕ),
      ((buildNodes settings cx cy sa n k ls).map key2).Nodup := by
  intro ls
  induction ls with
  | nil => intro k; simp [buildNodes]
  | cons layer rest ih =>
      intro k
      simp only [buildNodes, List.map_append]
      refine List.Nodup.append ?_ (ih (k + 1)) ?_
      · rw [mkLayerNodes_map_key2]
        exact (List.nodup_range _).map (fun a b hab => by simpa using hab)
      · intro p hp hp'
        rw [mkLayerNodes_map_key2] at hp
        simp only [List.mem_map, List.mem_range] at hp
        obtain ⟨i, _, rfl⟩ := hp
        simp only [List.mem_map] at hp'
        obtain ⟨nd, hnd, hkey⟩ := hp'
        have := buildNodes_layerIndex_bounds settings cx cy sa n rest (k + 1) nd hnd
        have hfst : nd.layerIndex = k := by
          have : (key2 nd).1 = k := by rw [hkey]
          simpa [key2] using this
        omega

lemma computeNodes_nodup (settings : VisualSettings) (dims : Dimensions)
    (layers : List LayerConfig) : (computeNodes settings dims layers).Nodup := by
  apply List.Nodup.of_map key2
  simp only [computeNodes]
  exact buildNodes_map_key2_nodup _ _ _ _ _ layers 0

lemma countP_decide_eq_count (t : Node) (l : List Node) :
    l.countP (fun x => decide (x = t)) = l.count t := by
  rw [List.count_eq_countP]
  exact List.countP_congr (fun x _ => by simp)

lemma sum_map_ite (p : Node → Prop) [DecidablePred p] (l : List Node) :
    (l.map (fun x => if p x then 1 else 0)).sum = l.countP (fun x => decide (p x)) := by
  induction l with
  | nil => simp
  | cons x xs ih =>
      simp only [List.map_cons, List.sum_cons, List.countP_cons, ih]
      by_cases hx : p x
      · simp [hx]
        omega
      · simp [hx]

lemma count_double_filter (all : List Node) (hall : all.Nodup) (s t : Node)
    (ht : t ∈ all) (hbias : t.isBias = false) :
    ((all.filter (fun n => n.layerIndex = s.layerIndex + 1)).filter
        (fun x => !x.isBias)).count t =
      if t.layerIndex = s.layerIndex + 1 then 1 else 0 := by
  by_cases hl : t.layerIndex = s.layerIndex + 1
  · rw [if_pos hl]
    have hmem : t ∈ (all.filter (fun n => n.layerIndex = s.layerIndex + 1)).filter
        (fun x => !x.isBias) := by
      rw [List.mem_filter, List.mem_filter]
      exact ⟨⟨ht, by simpa using hl⟩, by simp [hbias]⟩
    exact List.count_eq_one_of_mem (((hall.filter _).filter _)) hmem
  · rw [if_neg hl]
    rw [List.count_eq_zero]
    intro hmem
    rw [List.mem_filter, List.mem_filter] at hmem
    exact hl (by simpa using hmem.1.2)

/-- C2: every link goes from a node to a non-bias node of the next layer;
each such (source, target) pair carries exactly one link; and every
non-bias node of layer `i + 1` receives exactly `effectiveCount(i)`
incoming links. -/
theorem nnviz_c2 (sinTimes10000 : ℤ → ℚ) (layers : List LayerConfig)
    (settings : VisualSettings) (dims : Dimensions) :
    (∀ l ∈ (computeLayout sinTimes10000 layers settings dims).2,
        l.source ∈ (computeLayout sinTimes10000 layers settings dims).1 ∧
          l.target ∈ (computeLayout sinTimes10000 layers settings dims).1 ∧
          l.target.layerIndex = l.source.layerIndex + 1 ∧ l.target.isBias = false) ∧
      (∀ s ∈ (computeLayout sinTimes10000 layers settings dims).1,
        ∀ t ∈ (computeLayout sinTimes10000 layers settings dims).1,
          t.layerIndex = s.layerIndex + 1 → t.isBias = false →
            (computeLayout sinTimes10000 layers settings dims).2.countP
                (fun l => decide (l.source = s ∧ l.target = t)) = 1) ∧
      (∀ t ∈ (computeLayout sinTimes10000 layers settings dims).1,
        t.isBias = false → ∀ i : ℕ, t.layerIndex = i + 1 → i < layers.length →
          (computeLayout sinTimes10000 layers settings dims).2.countP
              (fun l => decide (l.target = t)) =
            effectiveCount settings layers.length i
              (layers.getD i defaultLayer).neurons) := by
  have hnodes : (computeLayout sinTimes10000 layers settings dims).1 =
      computeNodes settings dims layers := rfl
  have hnodup : (computeNodes settings dims layers).Nodup :=
    computeNodes_nodup settings dims layers
  refine ⟨?_, ?_, ?_⟩
  · intro l hl
    have := mem_genLinks sinTimes10000 _ _ _ l hl
    exact ⟨this.1, this.2.1, this.2.2.1, this.2.2.2.1⟩
  · intro s hs t ht hlayer hbias
    have hcount := genLinks_countP sinTimes10000 (computeNodes settings dims layers)
      (fun a b => decide (a = s ∧ b = t)) (computeNodes settings dims layers)
      settings.weightSeed
    rw [hnodes] at hs ht
    have hblocks : (computeNodes settings dims layers).map (fun s2 =>
        (((computeNodes settings dims layers).filter
          (fun n => n.layerIndex = s2.layerIndex + 1)).filter
            (fun x => !x.isBias)).countP (fun t2 => decide (s2 = s ∧ t2 = t))) =
        (computeNodes settings dims layers).map (fun s2 => if s2 = s then 1 else 0) := by
      apply List.map_congr_left
      intro s2 _
      by_cases hss : s2 = s
      · subst hss
        rw [if_pos rfl]
        have hc : (((computeNodes settings dims layers).filter
            (fun n => n.layerIndex = s2.layerIndex + 1)).filter
              (fun x => !x.isBias)).countP (fun t2 => decide (s2 = s2 ∧ t2 = t)) =
            (((computeNodes settings dims layers).filter
              (fun n => n.layerIndex = s2.layerIndex + 1)).filter
                (fun x => !x.isBias)).countP (fun t2 => decide (t2 = t)) :=
          List.countP_congr (fun x _ => by simp)
        rw [hc, countP_decide_eq_count,
          count_double_filter _ hnodup s2 t ht hbias, if_pos hlayer]
      · rw [if_neg hss]
        rw [List.countP_eq_zero]
        intro a _
        simp [hss]
    show (genLinks sinTimes10000 (computeNodes settings dims layers)
        (computeNodes settings dims layers) settings.weightSeed).1.countP
          (fun l => decide (l.source = s ∧ l.target = t)) = 1
    rw [genLinks_countP sinTimes10000 (computeNodes settings dims layers)
        (fun a b => decide (a = s ∧ b = t)) (computeNodes settings dims layers)
        settings.weightSeed, hblocks, sum_map_ite (fun x => x = s),
      countP_decide_eq_count s, List.count_eq_one_of_mem hnodup hs]
  · intro t ht hbias i hti hi
    rw [hnodes] at ht
    have hblocks : (computeNodes settings dims layers).map (fun s2 =>
        (((computeNodes settings dims layers).filter
          (fun n => n.layerIndex = s2.layerIndex + 1)).filter
            (fun x => !x.isBias)).countP (fun t2 => decide (t2 = t))) =
        (computeNodes settings dims layers).map
          (fun s2 => if t.layerIndex = s2.layerIndex + 1 then 1 else 0) := by
      apply List.map_congr_left
      intro s2 _
      rw [countP_decide_eq_count, count_double_filter _ hnodup s2 t ht hbias]
    show (genLinks sinTimes10000 (computeNodes settings dims layers)
        (computeNodes settings dims layers) settings.weightSeed).1.countP
          (fun l => decide (l.target = t)) = _
    rw [genLinks_countP sinTimes10000 (computeNodes settings dims layers)
        (fun a b => decide (b = t)) (computeNodes settings dims layers)
        settings.weightSeed, hblocks,
      sum_map_ite (fun x => t.layerIndex = x.layerIndex + 1)]
    have hcongr : (computeNodes settings dims layers).countP
        (fun x => decide (t.layerIndex = x.layerIndex + 1)) =
        (computeNodes settings dims layers).countP
          (fun x => decide (x.layerIndex = i)) := by
      apply List.countP_congr
      intro x _
      simp only [decide_eq_true_eq]
      omega
    rw [hcongr, List.countP_eq_length_filter]
    simp only [computeNodes]
    rw [buildNodes_filter settings _ _ _ layers.length layers 0 i,
      if_pos ⟨Nat.zero_le i, by simpa using hi⟩, Nat.sub_zero, mkLayerNodes_length]

/-- Witness for C2: in the concrete example, the pair of the first input
node and the first output-layer node carries exactly one link. -/
theorem nnviz_c2_witness :
    tgtEx.layerIndex = ndEx.layerIndex + 1 ∧ tgtEx.isBias = false ∧
      (computeLayout fEx layersEx settingsEx dimsEx).2.countP
        (fun l => decide (l.source = ndEx ∧ l.target = tgtEx)) = 1 :=
  ⟨by decide, by decide,
    (nnviz_c2 fEx layersEx settingsEx dimsEx).2.1 ndEx
      (by
        show (computeLayout fEx layersEx settingsEx dimsEx).1.getD 0 defaultNode ∈
          (computeLayout fEx layersEx settingsEx dimsEx).1
        have h0 : 0 < (computeLayout fEx layersEx settingsEx dimsEx).1.length := by decide
        rw [List.getD_eq_getElem _ _ h0]
        exact List.getElem_mem h0)
      tgtEx
      (by
        show (computeLayout fEx layersEx settingsEx dimsEx).1.getD 3 defaultNode ∈
          (computeLayout fEx layersEx settingsEx dimsEx).1
        have h3 : 3 < (computeLayout fEx layersEx settingsEx dimsEx).1.length := by decide
        rw [List.getD_eq_getElem _ _ h3]
        exact List.getElem_mem h3)
      (by decide) (by decide)⟩

/-- C4 (code bug): `updateLayerNeuron` copies only the array of references
(`[...layers]`) and then writes `newLayers[index].neurons` through the
shared reference, so the previously held `layers` snapshot observes the
change: with one layer of 18 neurons at reference 0, after
`updateLayerNeuron(0, 5)` the old snapshot reads 5 neurons, contradicting
the spec's requirement that edits never mutate the old value in place. -/
theorem nnviz_c4_bug :
    viewLayers (updateLayerNeuronHeap heapEx [0] 0 5).1 [0] =
        [{ id := "l1", neurons := 5 }] ∧
      viewLayers heapEx [0] = [{ id := "l1", neurons := 18 }] ∧
      viewLayers (updateLayerNeuronHeap heapEx [0] 0 5).1 [0] ≠
        viewLayers heapEx [0] := by
  refine ⟨?_, rfl, ?_⟩
  · simp [viewLayers, updateLayerNeuronHeap, heapEx, Function.update, clampNeurons]
  · simp [viewLayers, updateLayerNeuronHeap, heapEx, Function.update, clampNeurons]

lemma digitChar_ne_sep : ∀ d : ℕ, d < 10 →
    Nat.digitChar d ≠ '-' ∧ Nat.digitChar d ≠ '>' := by
  decide

lemma digitChar_injOn : ∀ a : ℕ, a < 10 → ∀ b : ℕ, b < 10 →
    Nat.digitChar a = Nat.digitChar b → a = b := by
  decide

lemma mem_decRepr (n : ℕ) :
    ∀ c ∈ (decRepr n).data, ∃ d : ℕ, d < 10 ∧ c = Nat.digitChar d := by
  intro c hc
  by_cases hn : n = 0
  · subst hn
    simp only [decRepr, if_pos rfl] at hc
    have : c = '0' := by simpa using hc
    exact ⟨0, by omega, by rw [this]; rfl⟩
  · simp only [decRepr, if_neg hn] at hc
    rw [List.mem_reverse, List.mem_map] at hc
    obtain ⟨d, hd, rfl⟩ := hc
    exact ⟨d, Nat.digits_lt_base (by norm_num) hd, rfl⟩

lemma decRepr_no_sep (n : ℕ) : ∀ c ∈ (decRepr n).data, c ≠ '-' ∧ c ≠ '>' := by
  intro c hc
  obtain ⟨d, hd, rfl⟩ := mem_decRepr n c hc
  exact digitChar_ne_sep d hd

lemma map_digitChar_inj : ∀ (l1 l2 : List ℕ), (∀ x ∈ l1, x < 10) → (∀ x ∈ l2, x < 10) →
    l1.map Nat.digitChar = l2.map Nat.digitChar → l1 = l2 := by
  intro l1
  induction l1 with
  | nil =>
      intro l2 _ _ h
      cases l2 with
      | nil => rfl
      | cons y t => simp at h
  | cons x t ih =>
      intro l2 h1 h2 h
      cases l2 with
      | nil => simp at h
      | cons y u =>
          simp only [List.map_cons, List.cons.injEq] at h
          have hx : x = y := digitChar_injOn x (h1 x (by simp)) y (h2 y (by simp)) h.1
          have ht : t = u := ih u (fun z hz => h1 z (by simp [hz]))
            (fun z hz => h2 z (by simp [hz])) h.2
          rw [hx, ht]

lemma decRepr_inj : ∀ m n : ℕ, decRepr m = decRepr n → m = n := by
  have key : ∀ n : ℕ, n ≠ 0 → decRepr n = "0" → False := by
    intro n hn h
    have hdata : (((Nat.digits 10 n).map Nat.digitChar).reverse) = ['0'] := by
      have := congrArg String.data h
      simpa [decRepr, if_neg hn] using this
    have hmap : (Nat.digits 10 n).map Nat.digitChar = ['0'] := by
      have := congrArg List.reverse hdata
      simpa using this
    have hdig : Nat.digits 10 n = [0] := by
      cases hd : Nat.digits 10 n with
      | nil => rw [hd] at hmap; simp at hmap
      | cons d ds =>
          rw [hd] at hmap
          simp only [List.map_cons, List.cons.injEq] at hmap
          have hds : ds = [] := by
            cases ds with
            | nil => rfl
            | cons e es => simp at hmap
          have hd10 : d < 10 := by
            apply Nat.digits_lt_base (by norm_num)
            rw [hd]
            simp
          have hd0 : d = 0 := by
            apply digitChar_injOn d hd10 0 (by omega)
            rw [hmap.1]
            rfl
          rw [hds, hd0]
    have : n = 0 := by
      have h0 := Nat.ofDigits_digits 10 n
      rw [hdig] at h0
      simpa [Nat.ofDigits] using h0.symm
    exact hn this
  intro m n h
  by_cases hm : m = 0
  · by_cases hn : n = 0
    · rw [hm, hn]
    · subst hm
      exact absurd (key n hn (by simpa [decRepr] using h.symm)) id
  · by_cases hn : n = 0
    · subst hn
      exact absurd (key m hm (by simpa [decRepr] using h)) id
    · have hdata : (((Nat.digits 10 m).map Nat.digitChar).reverse) =
          (((Nat.digits 10 n).map Nat.digitChar).reverse) := by
        have := congrArg String.data h
        simpa [decRepr, if_neg hm, if_neg hn] using this
      rw [List.reverse_inj] at hdata
      have := map_digitChar_inj _ _
        (fun x hx => Nat.digits_lt_base (by norm_num) hx)
        (fun x hx => Nat.digits_lt_base (by norm_num) hx) hdata
      exact Nat.digits_inj_iff.mp this

lemma append_sep_inj {α : Type} (c : α) :
    ∀ (a a' b b' : List α), c ∉ a → c ∉ a' → a ++ c :: b = a' ++ c :: b' →
      a = a' ∧ b = b' := by
  intro a
  induction a with
  | nil =>
      intro a' b b' _ hc' h
      cases a' with
      | nil => simpa using h
      | cons y t =>
          simp only [List.nil_append, List.cons_append, List.cons.injEq] at h
          exact absurd (h.1.symm ▸ List.mem_cons_self y t : c ∈ y :: t) hc'
  | cons x t ih =>
      intro a' b b' hc hc' h
      cases a' with
      | nil =>
          simp only [List.nil_append, List.cons_append, List.cons.injEq] at h
          exact absurd (h.1 ▸ List.mem_cons_self x t : c ∈ x :: t) hc
      | cons y u =>
          simp only [List.cons_append, List.cons.injEq] at h
          have hxy := h.1
          have := ih u b b' (fun hm => hc (List.mem_cons_of_mem x hm))
            (fun hm => hc' (List.mem_cons_of_mem y hm)) h.2
          exact ⟨by rw [hxy, this.1], this.2⟩

lemma nodeId_data (a b : ℕ) :
    (nodeId a b).data = (decRepr a).data ++ '-' :: (decRepr b).data := by
  simp [nodeId, String.data_append]

lemma nodeId_inj {a b a' b' : ℕ} (h : nodeId a b = nodeId a' b') : a = a' ∧ b = b' := by
  have hdata := congrArg String.data h
  rw [nodeId_data, nodeId_data] at hdata
  have := append_sep_inj '-' _ _ _ _
    (fun hm => (decRepr_no_sep a '-' hm).1 rfl)
    (fun hm => (decRepr_no_sep a' '-' hm).1 rfl) hdata
  exact ⟨decRepr_inj a a' (String.ext this.1), decRepr_inj b b' (String.ext this.2)⟩

lemma gt_not_mem_nodeId (a b : ℕ) : '>' ∉ (nodeId a b).data := by
  rw [nodeId_data]
  intro hm
  rcases List.mem_append.mp hm with hm | hm
  · exact (decRepr_no_sep a '>' hm).2 rfl
  · rcases List.mem_cons.mp hm with hm | hm
    · exact absurd hm.symm (by decide)
    · exact (decRepr_no_sep b '>' hm).2 rfl

lemma linkId_data (s t : String) :
    (linkId s t).data = (s.data ++ ['-']) ++ '>' :: t.data := by
  simp [linkId, String.data_append]

lemma linkId_nodeId_inj {a b a2 b2 a3 b3 a4 b4 : ℕ}
    (h : linkId (nodeId a b) (nodeId a2 b2) = linkId (nodeId a3 b3) (nodeId a4 b4)) :
    a = a3 ∧ b = b3 ∧ a2 = a4 ∧ b2 = b4 := by
  have hdata := congrArg String.data h
  rw [linkId_data, linkId_data] at hdata
  have hsep := append_sep_inj '>' _ _ _ _
    (fun hm => by
      rcases List.mem_append.mp hm with hm | hm
      · exact gt_not_mem_nodeId a b hm
      · have hq : ('>' : Char) = '-' := List.mem_singleton.mp hm
        exact absurd hq (by decide))
    (fun hm => by
      rcases List.mem_append.mp hm with hm | hm
      · exact gt_not_mem_nodeId a3 b3 hm
      · have hq : ('>' : Char) = '-' := List.mem_singleton.mp hm
        exact absurd hq (by decide))
    hdata
  have h1 : (nodeId a b).data = (nodeId a3 b3).data :=
    List.append_cancel_right hsep.1
  have h2 := nodeId_inj (String.ext h1)
  have h3 := nodeId_inj (String.ext hsep.2)
  exact ⟨h2.1, h2.2, h3.1, h3.2⟩

lemma mem_mkLayerNodes_id {settings : VisualSettings} {cx cy sa : ℚ}
    {n k : ℕ} {layer : LayerConfig} {nd : Node}
    (h : nd ∈ mkLayerNodes settings cx cy sa n k layer) :
    nd.id = nodeId nd.layerIndex nd.neuronIndex := by
  simp only [mkLayerNodes, List.mem_map, List.mem_range] at h
  obtain ⟨i, _, rfl⟩ := h
  rfl

lemma mem_buildNodes_id (settings : VisualSettings) (cx cy sa : ℚ) (n : ℕ) :
    ∀ (ls : List LayerConfig) (k : ℕ) (nd : Node),
      nd ∈ buildNodes settings cx cy sa n k ls →
        nd.id = nodeId nd.layerIndex nd.neuronIndex := by
  intro ls
  induction ls with
  | nil => intro k nd h; simp [buildNodes] at h
  | cons layer rest ih =>
      intro k nd h
      simp only [buildNodes, List.mem_append] at h
      rcases h with h | h
      · exact mem_mkLayerNodes_id h
      · exact ih (k + 1) nd h

lemma nodeIdPair_injective :
    Function.Injective (fun p : ℕ × ℕ => nodeId p.1 p.2) := by
  intro p q h
  have := nodeId_inj h
  exact Prod.ext this.1 this.2

lemma pushLinks_map_pairkey (sinTimes10000 : ℤ → ℚ) (s : Node) :
    ∀ (ts : List Node) (c : ℤ),
      (pushLinks sinTimes10000 s ts c).1.map
          (fun l => (key2 l.source, key2 l.target)) =
        (ts.filter (fun t => !t.isBias)).map (fun t => (key2 s, key2 t)) := by
  intro ts
  induction ts with
  | nil => intro c; simp [pushLinks]
  | cons t rest ih =>
      intro c
      by_cases hb : t.isBias
      · simp only [pushLinks, if_pos hb, List.filter_cons, hb]
        simp only [Bool.not_true, Bool.false_eq_true, if_false]
        exact ih c
      · have hb' : t.isBias = false := by simpa using hb
        simp only [pushLinks]
        rw [if_neg hb]
        simp [List.filter_cons, hb', ih (c + 1)]

lemma genLinks_pairkey_nodup (sinTimes10000 : ℤ → ℚ) (all : List Node)
    (hall : (all.map key2).Nodup) :
    ∀ (ss : List Node) (c : ℤ), (ss.map key2).Nodup →
      ((genLinks sinTimes10000 all ss c).1.map
        (fun l => (key2 l.source, key2 l.target))).Nodup := by
  intro ss
  induction ss with
  | nil => intro c _; simp [genLinks]
  | cons s rest ih =>
      intro c hnd
      have hnd2 : (∀ x ∈ rest, ¬key2 x = key2 s) ∧ (rest.map key2).Nodup := by
        simpa using hnd
      simp only [genLinks, List.map_append]
      refine List.Nodup.append ?_ (ih _ hnd2.2) ?_
      · rw [pushLinks_map_pairkey]
        have hsub : (((all.filter (fun n => n.layerIndex = s.layerIndex + 1)).filter
            (fun t => !t.isBias)).map key2).Nodup := by
          apply List.Nodup.sublist _ hall
          exact ((List.filter_sublist _).trans (List.filter_sublist _)).map key2
        have hform : ((all.filter (fun n => n.layerIndex = s.layerIndex + 1)).filter
            (fun t => !t.isBias)).map (fun t => (key2 s, key2 t)) =
            (((all.filter (fun n => n.layerIndex = s.layerIndex + 1)).filter
              (fun t => !t.isBias)).map key2).map (fun q => (key2 s, q)) := by
          rw [List.map_map]
          rfl
        rw [hform]
        exact hsub.map (fun q1 q2 hq => by simpa using hq)
      · intro p hp hp'
        rw [pushLinks_map_pairkey] at hp
        simp only [List.mem_map] at hp hp'
        obtain ⟨t, _, rfl⟩ := hp
        obtain ⟨l, hl, hpl⟩ := hp'
        have hsrc := (mem_genLinks sinTimes10000 all rest _ l hl).1
        have hfst : key2 l.source = key2 s := congrArg Prod.fst hpl
        exact hnd2.1 l.source hsrc hfst

/-- C10: all node identifiers of a layout are pairwise distinct, and all
link identifiers are pairwise distinct. -/
theorem nnviz_c10 (sinTimes10000 : ℤ → ℚ) (layers : List LayerConfig)
    (settings : VisualSettings) (dims : Dimensions) :
    ((computeLayout sinTimes10000 layers settings dims).1.map (fun nd => nd.id)).Nodup ∧
      ((computeLayout sinTimes10000 layers settings dims).2.map (fun l => l.id)).Nodup := by
  have hnodes : (computeLayout sinTimes10000 layers settings dims).1 =
      computeNodes settings dims layers := rfl
  have hkey : ((computeNodes settings dims layers).map key2).Nodup := by
    simp only [computeNodes]
    exact buildNodes_map_key2_nodup _ _ _ _ _ layers 0
  have hid : ∀ nd ∈ computeNodes settings dims layers,
      nd.id = nodeId nd.layerIndex nd.neuronIndex := by
    intro nd hnd
    simp only [computeNodes] at hnd
    exact mem_buildNodes_id _ _ _ _ _ layers 0 nd hnd
  constructor
  · rw [hnodes]
    have hform : (computeNodes settings dims layers).map (fun nd => nd.id) =
        ((computeNodes settings dims layers).map key2).map
          (fun p => nodeId p.1 p.2) := by
      rw [List.map_map]
      apply List.map_congr_left
      intro nd hnd
      simpa [key2] using hid nd hnd
    rw [hform]
    exact hkey.map nodeIdPair_injective
  · show (((genLinks sinTimes10000 (computeNodes settings dims layers)
      (computeNodes settings dims layers) settings.weightSeed).1).map
        (fun l => l.id)).Nodup
    have hform : ((genLinks sinTimes10000 (computeNodes settings dims layers)
        (computeNodes settings dims layers) settings.weightSeed).1).map
          (fun l => l.id) =
        (((genLinks sinTimes10000 (computeNodes settings dims layers)
          (computeNodes settings dims layers) settings.weightSeed).1).map
            (fun l => (key2 l.source, key2 l.target))).map
          (fun q => linkId (nodeId q.1.1 q.1.2) (nodeId q.2.1 q.2.2)) := by
      rw [List.map_map]
      apply List.map_congr_left
      intro l hl
      obtain ⟨hs, ht, _, _, hlid⟩ :=
        mem_genLinks sinTimes10000 _ _ _ l hl
      have hsid := hid _ hs
      have htid := hid _ ht
      simp only [Function.comp_apply, key2]
      rw [hlid, hsid, htid]
    rw [hform]
    apply List.Nodup.map
    · intro q1 q2 hq
      have := linkId_nodeId_inj hq
      obtain ⟨h1, h2, h3, h4⟩ := this
      have hq1 : q1.1 = q2.1 := Prod.ext h1 h2
      have hq2 : q1.2 = q2.2 := Prod.ext h3 h4
      exact Prod.ext hq1 hq2
    · exact genLinks_pairkey_nodup sinTimes10000 _ hkey _ settings.weightSeed hkey

end NNViz
